import Mathlib

/-
Verification of the frequency-planning and resource-composition logic of
`targets/opsis_base.py` (Numato Opsis SoC target).

The Python source is shallowly embedded:
  * class-level `csr_map` / `interrupt_map` / `mem_map` dictionaries and the
    `d = {...}; d.update(parent)` merge idiom become association lists over
    `String × Nat` with Python `dict` semantics (`dictSet`, `dictUpdate`,
    `dictGet`);
  * the `_CRG.__init__` frequency computation (`Fraction(clk_freq, f0)`,
    the exact-arithmetic `assert f0/n*m == clk_freq`, and the PLL parameters
    `p_CLKFBOUT_MULT = m*p//n`, `p_DIVCLK_DIVIDE = 1`,
    `p_CLKOUT5_DIVIDE = p//1`) becomes `CRG.plan`;
  * the power-on-reset counter and the `AsyncResetSynchronizer(cd_sys,
    ~pll_lckd | (por > 0))` reset gate become `porStep` / `sysResetIn`;
  * the combinatorial aliases `cd_sdram_full_rd.clk.eq(cd_sdram_full_wr.clk)`
    and `clk4x_rd_strb.eq(clk4x_wr_strb)` become the `crgDriver` map;
  * the constructors of `BaseSoC` and `MiniSoC` (conditional `ddrphy`
    instantiation, `register_mem` / `add_memory_region` calls) become
    `BaseSoC.submodules`, `BaseSoC.memRegions`, `MiniSoC.submodules`,
    `MiniSoC.memRegions`.

The parent class `SDRAMSoC` lives in the external `misoclib` dependency, so
its class tables are abstracted as a `ParentTables` parameter.
-/

namespace OpsisBase

/-! ## Python dict model

A Python `dict` with `str` keys and `int` values, as an insertion-ordered
association list.  `dictSet` is `d[k] = v` (replace in place, else append),
`dictUpdate d other` is `d.update(other)`, `dictGet` is `d.get(k)`. -/

def dictSet : List (String × Nat) → String → Nat → List (String × Nat)
  | [], k, v => [(k, v)]
  | (k0, v0) :: rest, k, v =>
      if k0 = k then (k, v) :: rest else (k0, v0) :: dictSet rest k v

def dictUpdate (d other : List (String × Nat)) : List (String × Nat) :=
  other.foldl (fun acc kv => dictSet acc kv.1 kv.2) d

def dictGet : List (String × Nat) → String → Option Nat
  | [], _ => none
  | (k0, v0) :: rest, k => if k0 = k then some v0 else dictGet rest k

def dictKeys (d : List (String × Nat)) : List String :=
  d.map Prod.fst

def dictValues (d : List (String × Nat)) : List Nat :=
  d.map Prod.snd

/-! ## Frequency planner (`_CRG.__init__`, lines 80-115)

`f0 = 100*1000000`; `f = Fraction(int(clk_freq), int(f0))`;
`n, m = f.denominator, f.numerator`; `assert f0/n*m == clk_freq`; `p = 8`;
the PLL instance gets `p_DIVCLK_DIVIDE=1`, `p_CLKFBOUT_MULT=m*p//n`,
`p_CLKOUT0_DIVIDE=p//4`, `p_CLKOUT2_DIVIDE=p//2`, `p_CLKOUT5_DIVIDE=p//1`;
the system clock is `CLKOUT5`. -/

namespace CRG

def f0 : Nat := 100 * 1000000

def p : Nat := 8

/-- The reduced fraction `Fraction(clk_freq, f0)` as a pair
`(m, n)` = (numerator, denominator). -/
def fractionOf (clk_freq : Nat) : Nat × Nat :=
  (clk_freq / Nat.gcd clk_freq f0, f0 / Nat.gcd clk_freq f0)

/-- The source's `assert f0/n*m == clk_freq`, read in exact (rational)
arithmetic. -/
def assertHolds (clk_freq : Nat) : Prop :=
  (f0 : ℚ) / (fractionOf clk_freq).2 * (fractionOf clk_freq).1 = clk_freq

instance (clk_freq : Nat) : Decidable (assertHolds clk_freq) := by
  unfold assertHolds
  infer_instance

end CRG

/-- The integer divider parameters handed to the `PLL_ADV` instance. -/
structure FrequencyPlan where
  clkfbout_mult : Nat
  divclk_divide : Nat
  clkout0_divide : Nat
  clkout2_divide : Nat
  clkout5_divide : Nat
deriving DecidableEq

/-- The planning part of `_CRG.__init__`: reduce `clk_freq / f0`, run the
assert (`none` models an `AssertionError`), and produce the PLL divider
parameters exactly as the source computes them. -/
def CRG.plan (clk_freq : Nat) : Option FrequencyPlan :=
  let m := (CRG.fractionOf clk_freq).1
  let n := (CRG.fractionOf clk_freq).2
  if CRG.assertHolds clk_freq then
    some { clkfbout_mult := m * CRG.p / n
           divclk_divide := 1
           clkout0_divide := CRG.p / 4
           clkout2_divide := CRG.p / 2
           clkout5_divide := CRG.p / 1 }
  else
    none

/-- Exactness of a plan for the system clock tap (`CLKOUT5`):
`referenceHz * multiply / (divide * postDivide) == targetHz` with zero
remainder, written cross-multiplied so it is exact integer arithmetic. -/
def exactPlan (referenceHz : Nat) (P : FrequencyPlan) (targetHz : Nat) : Prop :=
  referenceHz * P.clkfbout_mult = targetHz * (P.divclk_divide * P.clkout5_divide)

instance (r : Nat) (P : FrequencyPlan) (t : Nat) : Decidable (exactPlan r P t) := by
  unfold exactPlan
  infer_instance

/-! ## Power-on reset (`_CRG.__init__`, lines 117-123)

`por = Signal(max=1 << 11, reset=(1 << 11) - 1)`;
`self.sync.por += If(por != 0, por.eq(por - 1))`;
`AsyncResetSynchronizer(self.cd_sys, ~pll_lckd | (por > 0))`. -/

def porReset : Nat := (1 <<< 11) - 1

/-- One clock of the `por` domain: `If(por != 0, por.eq(por - 1))`. -/
def porStep (por : Nat) : Nat :=
  if por ≠ 0 then por - 1 else por

/-- The `por` counter value after `k` clocks of the `por` domain. -/
def porAfter : Nat → Nat
  | 0 => porReset
  | k + 1 => porStep (porAfter k)

/-- The reset input fed to the system clock domain's reset synchronizer:
`~pll_lckd | (por > 0)`. -/
def sysResetIn (pll_lckd : Bool) (por : Nat) : Bool :=
  !pll_lckd || decide (0 < por)

/-! ## Clock / strobe wiring (`_CRG.__init__`, lines 116-132)

Each clock-domain clock and strobe of `_CRG` is a distinct signal; its
driver is either the output port of a vendor primitive instance (with the
PLL output tap index it is fed from) or a combinatorial alias of another
`_CRG` signal (`self.comb += dst.eq(src)`). -/

inductive CRGSig where
  | cdSysClk
  | cdSdramHalfClk
  | cdSdramFullWrClk
  | cdSdramFullRdClk
  | clk4xWrStrb
  | clk4xRdStrb
deriving DecidableEq

inductive Driver where
  | fromInstance (primitive port : String) (pllTap : Nat)
  | aliasOf (src : CRGSig)
deriving DecidableEq

/-- The driver of each `_CRG` output signal, as written in the source:
`BUFG(pll[5]) → cd_sys.clk`, `BUFG(pll[2]) → cd_sdram_half.clk`,
`BUFPLL(pll[0]).IOCLK → cd_sdram_full_wr.clk`,
`BUFPLL(pll[0]).SERDESSTROBE → clk4x_wr_strb`, and the two comb aliases
`cd_sdram_full_rd.clk.eq(cd_sdram_full_wr.clk)`,
`clk4x_rd_strb.eq(clk4x_wr_strb)`. -/
def crgDriver : CRGSig → Driver
  | .cdSysClk => .fromInstance "BUFG" "O" 5
  | .cdSdramHalfClk => .fromInstance "BUFG" "O" 2
  | .cdSdramFullWrClk => .fromInstance "BUFPLL" "IOCLK" 0
  | .cdSdramFullRdClk => .aliasOf .cdSdramFullWrClk
  | .clk4xWrStrb => .fromInstance "BUFPLL" "SERDESSTROBE" 0
  | .clk4xRdStrb => .aliasOf .clk4xWrStrb

/-! ## SoC variant tables (`BaseSoC`, `MiniSoC`, lines 157-245)

The parent class `SDRAMSoC` is external (`misoclib.soc.sdram`), so its class
tables are a parameter.  Each variant builds its table as the source does:
a fresh dict literal, then `.update(Parent.table)`. -/

/-- The class tables inherited from the external `SDRAMSoC` base class. -/
structure ParentTables where
  csr_map : List (String × Nat)
  interrupt_map : List (String × Nat)
  mem_map : List (String × Nat)

/-- Modelled from the spec: `self.shadow_base`, the fixed platform
shadow-window offset inherited from the external `SDRAMSoC` base class
(`misoclib`), is not under `src/`.  The spec describes the shadow address as
"a secondary address ... offset by a fixed platform constant", and the
source comments pin it down: `0x20000000  # (default shadow @0xa0000000)`
and `0x30000000  # (shadow @0xb0000000)`, so the constant is
`0x80000000`. -/
def shadow_base : Nat := 0x80000000

def BaseSoC.csr_map (pt : ParentTables) : List (String × Nat) :=
  dictUpdate [("ddrphy", 16)] pt.csr_map

def BaseSoC.interrupt_map (pt : ParentTables) : List (String × Nat) :=
  pt.interrupt_map

def BaseSoC.mem_map (pt : ParentTables) : List (String × Nat) :=
  dictUpdate [("firmware_ram", 0x20000000)] pt.mem_map

def MiniSoC.csr_map (pt : ParentTables) : List (String × Nat) :=
  dictUpdate [("ethphy", 17), ("ethmac", 18)] (BaseSoC.csr_map pt)

def MiniSoC.interrupt_map (pt : ParentTables) : List (String × Nat) :=
  dictUpdate [("ethmac", 2)] (BaseSoC.interrupt_map pt)

def MiniSoC.mem_map (pt : ParentTables) : List (String × Nat) :=
  dictUpdate [("ethmac", 0x30000000)] (BaseSoC.mem_map pt)

/-! ## SoC constructors (`BaseSoC.__init__`, `MiniSoC.__init__`) -/

/-- A registered memory region: name, base address, size. -/
structure MemRegion where
  name : String
  base : Nat
  size : Nat
deriving DecidableEq

/-- The constructor arguments that matter here: `integrated_main_ram_size`
(a `SDRAMSoC` keyword argument, tested by `if not
self.integrated_main_ram_size:`) and `firmware_ram_size=0x8000`. -/
structure SoCConfig where
  integrated_main_ram_size : Nat
  firmware_ram_size : Nat
deriving DecidableEq

/-- `clk_freq = 75*1000000` in `BaseSoC.__init__`. -/
def BaseSoC.clk_freq : Nat := 75 * 1000000

/-- The submodules `BaseSoC.__init__` attaches, in source order: `crg` and
`firmware_ram` unconditionally, `ddrphy` only under
`if not self.integrated_main_ram_size:`. -/
def BaseSoC.submodules (cfg : SoCConfig) : List String :=
  ["crg", "firmware_ram"] ++
    (if cfg.integrated_main_ram_size = 0 then ["ddrphy"] else [])

/-- The names passed to `register_sdram_phy` by `BaseSoC.__init__`: just
`ddrphy`, and only under `if not self.integrated_main_ram_size:`. -/
def BaseSoC.sdramPhyRegistrations (cfg : SoCConfig) : List String :=
  if cfg.integrated_main_ram_size = 0 then ["ddrphy"] else []

/-- The memory regions `BaseSoC.__init__` registers:
`self.register_mem("firmware_ram", self.mem_map["firmware_ram"],
self.firmware_ram.bus, firmware_ram_size)`. -/
def BaseSoC.memRegions (pt : ParentTables) (cfg : SoCConfig) : List MemRegion :=
  [⟨"firmware_ram", (dictGet (BaseSoC.mem_map pt) "firmware_ram").getD 0,
    cfg.firmware_ram_size⟩]

/-- `MiniSoC.__init__` first runs `BaseSoC.__init__`, then attaches
`ethphy` and `ethmac`. -/
def MiniSoC.submodules (cfg : SoCConfig) : List String :=
  BaseSoC.submodules cfg ++ ["ethphy", "ethmac"]

/-- The memory regions after `MiniSoC.__init__`:
`BaseSoC`'s, then `self.add_memory_region("ethmac",
self.mem_map["ethmac"]+self.shadow_base, 0x2000)`. -/
def MiniSoC.memRegions (pt : ParentTables) (cfg : SoCConfig) : List MemRegion :=
  BaseSoC.memRegions pt cfg ++
    [⟨"ethmac", (dictGet (MiniSoC.mem_map pt) "ethmac").getD 0 + shadow_base,
      0x2000⟩]

/-! ## Derived predicates used by the claims -/

/-- Per-kind value injectivity: no two entries of the table carry the same
value. -/
def dictValuesNodup (d : List (String × Nat)) : Prop :=
  (dictValues d).Nodup

/-- Registered memory regions are pairwise non-overlapping as half-open
ranges `[base, base+size)`. -/
def regionsDisjoint (rs : List MemRegion) : Prop :=
  rs.Pairwise (fun a b => a.base + a.size ≤ b.base ∨ b.base + b.size ≤ a.base)

/-! ## Lemmas about the dict model -/

theorem dictGet_dictSet_self (d : List (String × Nat)) (k : String) (v : Nat) :
    dictGet (dictSet d k v) k = some v := by
  induction d with
  | nil => simp [dictSet, dictGet]
  | cons hd tl ih =>
    obtain ⟨k0, v0⟩ := hd
    by_cases h : k0 = k
    · simp [dictSet, dictGet, h]
    · simp [dictSet, dictGet, h, ih]

theorem dictKeys_nil : dictKeys [] = [] := rfl

theorem dictKeys_cons (k0 : String) (v0 : Nat) (tl : List (String × Nat)) :
    dictKeys ((k0, v0) :: tl) = k0 :: dictKeys tl := rfl

theorem dictKeys_append (d1 d2 : List (String × Nat)) :
    dictKeys (d1 ++ d2) = dictKeys d1 ++ dictKeys d2 := by
  simp [dictKeys]

theorem dictValues_append (d1 d2 : List (String × Nat)) :
    dictValues (d1 ++ d2) = dictValues d1 ++ dictValues d2 := by
  simp [dictValues]

theorem dictGet_dictSet_ne (d : List (String × Nat)) (k k2 : String) (v : Nat)
    (h : k2 ≠ k) : dictGet (dictSet d k2 v) k = dictGet d k := by
  induction d with
  | nil => simp [dictSet, dictGet, h]
  | cons hd tl ih =>
    obtain ⟨k0, v0⟩ := hd
    by_cases h0 : k0 = k2
    · subst h0
      simp [dictSet, dictGet, h]
    · by_cases h1 : k0 = k
      · subst h1
        simp [dictSet, dictGet, h0, Ne.symm h]
      · simp [dictSet, dictGet, h0, h1, ih]

theorem dictSet_of_not_mem (d : List (String × Nat)) (k : String) (v : Nat)
    (h : k ∉ dictKeys d) : dictSet d k v = d ++ [(k, v)] := by
  induction d with
  | nil => simp [dictSet]
  | cons hd tl ih =>
    obtain ⟨k0, v0⟩ := hd
    rw [dictKeys_cons] at h
    simp only [List.mem_cons, not_or] at h
    have h1 : k0 ≠ k := fun e => h.1 e.symm
    simp [dictSet, h1, ih h.2]

theorem dictUpdate_cons (d : List (String × Nat)) (k : String) (v : Nat)
    (rest : List (String × Nat)) :
    dictUpdate d ((k, v) :: rest) = dictUpdate (dictSet d k v) rest := rfl

theorem dictGet_dictUpdate_of_not_mem (d other : List (String × Nat)) (k : String)
    (h : k ∉ dictKeys other) :
    dictGet (dictUpdate d other) k = dictGet d k := by
  induction other generalizing d with
  | nil => rfl
  | cons hd tl ih =>
    obtain ⟨k0, v0⟩ := hd
    rw [dictKeys_cons] at h
    simp only [List.mem_cons, not_or] at h
    rw [dictUpdate_cons, ih _ h.2, dictGet_dictSet_ne]
    exact fun h0 => h.1 h0.symm

theorem dictGet_dictUpdate_of_mem (d other : List (String × Nat)) (k : String)
    (h : k ∈ dictKeys other) (hn : (dictKeys other).Nodup) :
    dictGet (dictUpdate d other) k = dictGet other k := by
  induction other generalizing d with
  | nil => simp [dictKeys_nil] at h
  | cons hd tl ih =>
    obtain ⟨k0, v0⟩ := hd
    rw [dictKeys_cons] at h hn
    rw [List.nodup_cons] at hn
    by_cases hk : k ∈ dictKeys tl
    · have hne : k0 ≠ k := by
        rintro rfl
        exact hn.1 hk
      rw [dictUpdate_cons, ih _ hk hn.2]
      simp [dictGet, hne]
    · have hk0 : k = k0 := by
        rcases List.mem_cons.mp h with h1 | h1
        · exact h1
        · exact absurd h1 hk
      subst hk0
      rw [dictUpdate_cons, dictGet_dictUpdate_of_not_mem _ _ _ hk,
        dictGet_dictSet_self]
      simp [dictGet]

theorem dictUpdate_eq_append (d other : List (String × Nat))
    (hfresh : ∀ k ∈ dictKeys other, k ∉ dictKeys d)
    (hn : (dictKeys other).Nodup) :
    dictUpdate d other = d ++ other := by
  induction other generalizing d with
  | nil => simp [dictUpdate]
  | cons hd tl ih =>
    obtain ⟨k0, v0⟩ := hd
    rw [dictKeys_cons] at hfresh hn
    rw [List.nodup_cons] at hn
    have h0 : k0 ∉ dictKeys d := hfresh k0 (List.mem_cons_self _ _)
    rw [dictUpdate_cons, dictSet_of_not_mem _ _ _ h0, ih]
    · simp
    · intro k hk
      rw [dictKeys_append]
      simp only [List.mem_append, not_or]
      refine ⟨hfresh k (List.mem_cons_of_mem _ hk), ?_⟩
      rw [dictKeys_cons, dictKeys_nil]
      simp only [List.mem_singleton]
      rintro rfl
      exact hn.1 hk
    · exact hn.2

theorem mem_dictKeys_dictSet (d : List (String × Nat)) (k k2 : String) (v : Nat) :
    k ∈ dictKeys (dictSet d k2 v) ↔ k ∈ dictKeys d ∨ k = k2 := by
  induction d with
  | nil => simp [dictSet, dictKeys]
  | cons hd tl ih =>
    obtain ⟨k0, v0⟩ := hd
    by_cases h0 : k0 = k2
    · subst h0
      rw [show dictSet ((k0, v0) :: tl) k0 v = (k0, v) :: tl from by simp [dictSet]]
      rw [dictKeys_cons, dictKeys_cons]
      simp
      tauto
    · rw [show dictSet ((k0, v0) :: tl) k2 v = (k0, v0) :: dictSet tl k2 v from by
        simp [dictSet, h0]]
      rw [dictKeys_cons, dictKeys_cons]
      simp [ih]
      tauto

theorem dictKeys_dictSet_nodup (d : List (String × Nat)) (k : String) (v : Nat)
    (h : (dictKeys d).Nodup) : (dictKeys (dictSet d k v)).Nodup := by
  induction d with
  | nil => simp [dictSet, dictKeys]
  | cons hd tl ih =>
    obtain ⟨k0, v0⟩ := hd
    rw [dictKeys_cons, List.nodup_cons] at h
    by_cases h0 : k0 = k
    · subst h0
      rw [show dictSet ((k0, v0) :: tl) k0 v = (k0, v) :: tl from by simp [dictSet]]
      rw [dictKeys_cons, List.nodup_cons]
      exact h
    · rw [show dictSet ((k0, v0) :: tl) k v = (k0, v0) :: dictSet tl k v from by
        simp [dictSet, h0]]
      rw [dictKeys_cons, List.nodup_cons]
      refine ⟨?_, ih h.2⟩
      intro hmem
      rcases (mem_dictKeys_dictSet tl k0 k v).mp hmem with h1 | h1
      · exact h.1 h1
      · exact h0 h1

theorem mem_dictKeys_dictUpdate (d other : List (String × Nat)) (k : String) :
    k ∈ dictKeys (dictUpdate d other) ↔ k ∈ dictKeys d ∨ k ∈ dictKeys other := by
  induction other generalizing d with
  | nil => simp [dictUpdate, dictKeys_nil]
  | cons hd tl ih =>
    obtain ⟨k0, v0⟩ := hd
    rw [dictUpdate_cons, ih, mem_dictKeys_dictSet, dictKeys_cons]
    simp
    tauto

theorem dictKeys_dictUpdate_nodup (d other : List (String × Nat))
    (h : (dictKeys d).Nodup) : (dictKeys (dictUpdate d other)).Nodup := by
  induction other generalizing d with
  | nil => exact h
  | cons hd tl ih =>
    obtain ⟨k0, v0⟩ := hd
    rw [dictUpdate_cons]
    exact ih _ (dictKeys_dictSet_nodup _ _ _ h)

/-! ## Lemmas about the frequency planner -/

theorem crg_f0_pos : 0 < CRG.f0 := by norm_num [CRG.f0]

/-- The exact-arithmetic reading of `assert f0/n*m == clk_freq` holds for
every positive integer target, because `(m, n)` is `clk_freq / f0` in lowest
terms. -/
theorem crg_assertHolds_of_pos (c : Nat) (h : 0 < c) : CRG.assertHolds c := by
  unfold CRG.assertHolds CRG.fractionOf
  set g := Nat.gcd c CRG.f0 with hg
  have hgpos : 0 < g := Nat.gcd_pos_of_pos_left _ h
  obtain ⟨m, hm⟩ := Nat.gcd_dvd_left c CRG.f0
  obtain ⟨n, hn⟩ := Nat.gcd_dvd_right c CRG.f0
  have hnpos : 0 < n := by
    rcases Nat.eq_zero_or_pos n with h0 | h0
    · exfalso
      have hf := crg_f0_pos
      rw [← hg] at hn
      rw [hn, h0, Nat.mul_zero] at hf
      exact Nat.lt_irrefl 0 hf
    · exact h0
  rw [← hg] at hm hn
  rw [hm, hn, Nat.mul_div_cancel_left m hgpos, Nat.mul_div_cancel_left n hgpos]
  have hnq : (n : ℚ) ≠ 0 := by
    exact_mod_cast Nat.pos_iff_ne_zero.mp hnpos
  push_cast
  field_simp

/-- The value `CRG.plan` returns on every positive target: the assert
passes and the PLL parameters are `m*p//n`, `1`, `p//4`, `p//2`, `p//1`. -/
theorem crg_plan_eq (c : Nat) (h : 0 < c) :
    CRG.plan c = some
      { clkfbout_mult := c / Nat.gcd c CRG.f0 * CRG.p / (CRG.f0 / Nat.gcd c CRG.f0)
        divclk_divide := 1
        clkout0_divide := 2
        clkout2_divide := 4
        clkout5_divide := 8 } := by
  unfold CRG.plan
  rw [if_pos (crg_assertHolds_of_pos c h)]
  simp [CRG.fractionOf, CRG.p]

/-- The plan is exact for the system tap iff the reduced denominator `n`
divides `m * p`. -/
theorem crg_exact_iff (c : Nat) (h : 0 < c) :
    (exactPlan CRG.f0
      { clkfbout_mult := c / Nat.gcd c CRG.f0 * CRG.p / (CRG.f0 / Nat.gcd c CRG.f0)
        divclk_divide := 1
        clkout0_divide := 2
        clkout2_divide := 4
        clkout5_divide := 8 } c) ↔
    (CRG.f0 / Nat.gcd c CRG.f0) ∣ c / Nat.gcd c CRG.f0 * CRG.p := by
  unfold exactPlan
  set g := Nat.gcd c CRG.f0 with hg
  have hgpos : 0 < g := Nat.gcd_pos_of_pos_left _ h
  obtain ⟨m, hm⟩ := Nat.gcd_dvd_left c CRG.f0
  obtain ⟨n, hn⟩ := Nat.gcd_dvd_right c CRG.f0
  rw [← hg] at hm hn
  rw [hm, hn, Nat.mul_div_cancel_left m hgpos, Nat.mul_div_cancel_left n hgpos]
  simp only [Nat.one_mul]
  constructor
  · intro heq
    have heq2 : n * (m * CRG.p / n) = m * CRG.p := by
      have hc : g * (n * (m * CRG.p / n)) = g * (m * CRG.p) := by
        calc g * (n * (m * CRG.p / n)) = g * n * (m * CRG.p / n) := by ring
          _ = g * m * 8 := heq
          _ = g * (m * CRG.p) := by simp only [CRG.p]; ring
      exact Nat.eq_of_mul_eq_mul_left hgpos hc
    exact ⟨m * CRG.p / n, heq2.symm⟩
  · intro hdvd
    have heq2 : n * (m * CRG.p / n) = m * CRG.p := Nat.mul_div_cancel' hdvd
    calc g * n * (m * CRG.p / n) = g * (n * (m * CRG.p / n)) := by ring
      _ = g * (m * CRG.p) := by rw [heq2]
      _ = g * m * 8 := by simp only [CRG.p]; ring

/-! ## Lemmas about the power-on-reset counter -/

theorem porStep_eq (x : Nat) : porStep x = x - 1 := by
  unfold porStep
  by_cases h : x = 0
  · subst h
    simp
  · simp [h]

theorem porAfter_eq (k : Nat) : porAfter k = porReset - k := by
  induction k with
  | zero => simp [porAfter]
  | succ k ih => rw [porAfter, porStep_eq, ih, Nat.sub_sub]

/-! ## Claim theorems -/

/-- C1, counterexample: for `targetHz = 30_000_000` an exact integer
multiply/divide pair within small hardware bounds exists (`multiply = 12`,
`divide = 5` gives `100e6 * 12 / (5 * 8) = 30e6` exactly), yet the planner
does not fail: it returns a plan whose factors violate the exactness
equation (it silently floors `m*p//n = 24//10` to `2`, i.e. 25 MHz). -/
theorem C1_counterexample :
    (∃ M D : Nat, 0 < D ∧ M ≤ 64 ∧ D ≤ 64 ∧
      CRG.f0 * M = 30000000 * (D * CRG.p)) ∧
    ∃ P, CRG.plan 30000000 = some P ∧ ¬ exactPlan CRG.f0 P 30000000 := by
  constructor
  · exact ⟨12, 5, by norm_num [CRG.f0, CRG.p]⟩
  · refine ⟨_, crg_plan_eq 30000000 (by norm_num), ?_⟩
    intro hexact
    unfold exactPlan at hexact
    rw [show (30000000 : Nat) / Nat.gcd 30000000 CRG.f0 * CRG.p /
        (CRG.f0 / Nat.gcd 30000000 CRG.f0) = 2 from by decide] at hexact
    norm_num [CRG.f0] at hexact

/-- C1, amended: the planner never fails with a frequency-mismatch error —
the exact-arithmetic assert is a tautology for every positive integer
target, so a plan is always returned — and the returned factors satisfy
`referenceHz*multiply/(divide*postDivide) == targetHz` exactly if and only
if the reduced denominator `n` of `targetHz/referenceHz` divides `m * p`;
otherwise the plan silently realizes a different frequency. -/
theorem C1_plan_total_exact_iff (clk_freq : Nat) (h : 0 < clk_freq) :
    ∃ P, CRG.plan clk_freq = some P ∧
      (exactPlan CRG.f0 P clk_freq ↔
        (CRG.f0 / Nat.gcd clk_freq CRG.f0) ∣
          clk_freq / Nat.gcd clk_freq CRG.f0 * CRG.p) :=
  ⟨_, crg_plan_eq clk_freq h, crg_exact_iff clk_freq h⟩

/-- Witness for C1's amended theorem at the concrete Opsis target
frequency 75 MHz. -/
theorem C1_plan_total_exact_iff_witness :
    0 < 75000000 ∧
    ∃ P, CRG.plan 75000000 = some P ∧
      (exactPlan CRG.f0 P 75000000 ↔
        (CRG.f0 / Nat.gcd 75000000 CRG.f0) ∣
          75000000 / Nat.gcd 75000000 CRG.f0 * CRG.p) :=
  ⟨by decide, C1_plan_total_exact_iff 75000000 (by decide)⟩

/-- C4: the system clock domain is released from reset exactly when the
power-on-reset counter (initialized to `(1 << 11) - 1`, decrementing once
per `por` clock and saturating at zero) has reached zero AND the external
PLL lock signal asserts; it is never released while the counter is nonzero
or lock is deasserted. -/
theorem C4_sys_reset_gate :
    (∀ (k : Nat) (pll_lckd : Bool),
      sysResetIn pll_lckd (porAfter k) = false ↔
        (pll_lckd = true ∧ porReset ≤ k)) ∧
    porAfter 0 = (1 <<< 11) - 1 ∧
    (∀ k : Nat, porAfter (k + 1) = porAfter k - 1) := by
  refine ⟨?_, rfl, ?_⟩
  · intro k pll_lckd
    rw [porAfter_eq]
    unfold sysResetIn
    rcases pll_lckd with _ | _
    · simp
    · simp [Nat.pos_iff_ne_zero, Nat.sub_eq_zero_iff_le]
  · intro k
    rw [porAfter, porStep_eq]

/-- C5: in the `_CRG` wiring, the memory read domain's clock is a
combinatorial alias of the write domain's clock and the read strobe an
alias of the write strobe — both pairs share one physical signal, the
write-side `BUFPLL` outputs — and every composed variant (`BaseSoC` and
`MiniSoC`) instantiates this same `crg`. -/
theorem C5_read_is_alias_of_write :
    crgDriver .cdSdramFullRdClk = .aliasOf .cdSdramFullWrClk ∧
    crgDriver .clk4xRdStrb = .aliasOf .clk4xWrStrb ∧
    crgDriver .cdSdramFullWrClk = .fromInstance "BUFPLL" "IOCLK" 0 ∧
    crgDriver .clk4xWrStrb = .fromInstance "BUFPLL" "SERDESSTROBE" 0 ∧
    (∀ cfg : SoCConfig,
      "crg" ∈ BaseSoC.submodules cfg ∧ "crg" ∈ MiniSoC.submodules cfg) := by
  refine ⟨rfl, rfl, rfl, rfl, fun cfg => ⟨?_, ?_⟩⟩ <;>
    simp [BaseSoC.submodules, MiniSoC.submodules]

/-- C6: the `ddrphy` subsystem is instantiated, and passed to
`register_sdram_phy`, exactly when `integrated_main_ram_size` is zero; with
integrated memory present it is omitted and absent from the registrations,
in `BaseSoC` and `MiniSoC` alike. -/
theorem C6_ddrphy_iff_no_integrated_ram (cfg : SoCConfig) :
    ("ddrphy" ∈ BaseSoC.submodules cfg ↔ cfg.integrated_main_ram_size = 0) ∧
    ("ddrphy" ∈ BaseSoC.sdramPhyRegistrations cfg ↔
      cfg.integrated_main_ram_size = 0) ∧
    ("ddrphy" ∈ MiniSoC.submodules cfg ↔ cfg.integrated_main_ram_size = 0) := by
  by_cases h : cfg.integrated_main_ram_size = 0 <;>
    simp [BaseSoC.submodules, BaseSoC.sdramPhyRegistrations,
      MiniSoC.submodules, h]

/-- C8: at the concrete Opsis configuration (`referenceHz = 100_000_000`,
`targetHz = clk_freq = 75_000_000`, post-divide `p = 8`) the planner yields
`multiply = 6` with `divide = 1`, and the exactness invariant
`referenceHz*multiply/(divide*postDivide) == targetHz` holds with zero
remainder. -/
theorem C8_opsis_75mhz_exact :
    BaseSoC.clk_freq = 75 * 1000000 ∧
    ∃ P, CRG.plan BaseSoC.clk_freq = some P ∧
      P.clkfbout_mult = 6 ∧ P.divclk_divide = 1 ∧ P.clkout5_divide = 8 ∧
      exactPlan CRG.f0 P BaseSoC.clk_freq := by
  refine ⟨rfl, _, crg_plan_eq _ (by norm_num [BaseSoC.clk_freq]), ?_, rfl, rfl, ?_⟩
  · decide
  · unfold exactPlan
    rw [show BaseSoC.clk_freq / Nat.gcd BaseSoC.clk_freq CRG.f0 * CRG.p /
        (CRG.f0 / Nat.gcd BaseSoC.clk_freq CRG.f0) = 6 from by decide]
    norm_num [CRG.f0, BaseSoC.clk_freq]

/-- C9: the planner's exactness assertion, read in exact arithmetic, holds
for every positive integer target frequency — the reduced
numerator/denominator always reproduce `clk_freq` — so the assert can never
reject a target, and the planner always returns a plan. -/
theorem C9_assert_never_rejects (clk_freq : Nat) (h : 0 < clk_freq) :
    CRG.assertHolds clk_freq ∧ (CRG.plan clk_freq).isSome = true := by
  refine ⟨crg_assertHolds_of_pos _ h, ?_⟩
  rw [crg_plan_eq _ h]
  rfl

/-- Witness for C9 at the (non-reachable, coprime) target 33,333,333 Hz. -/
theorem C9_assert_never_rejects_witness :
    0 < 33333333 ∧
    (CRG.assertHolds 33333333 ∧ (CRG.plan 33333333).isSome = true) :=
  ⟨by decide, C9_assert_never_rejects 33333333 (by decide)⟩

/-! ## Helper lemmas for the merged memory maps -/

instance (d : List (String × Nat)) : Decidable (dictValuesNodup d) := by
  unfold dictValuesNodup
  exact List.nodupDecidable _

instance (rs : List MemRegion) : Decidable (regionsDisjoint rs) := by
  unfold regionsDisjoint
  infer_instance

theorem baseSoC_mem_map_firmware (pt : ParentTables)
    (h : "firmware_ram" ∉ dictKeys pt.mem_map) :
    dictGet (BaseSoC.mem_map pt) "firmware_ram" = some 0x20000000 := by
  unfold BaseSoC.mem_map
  rw [dictGet_dictUpdate_of_not_mem _ _ _ h]
  rfl

theorem miniSoC_mem_map_ethmac (pt : ParentTables)
    (h : "ethmac" ∉ dictKeys pt.mem_map) :
    dictGet (MiniSoC.mem_map pt) "ethmac" = some 0x30000000 := by
  have hk : "ethmac" ∉ dictKeys (BaseSoC.mem_map pt) := by
    unfold BaseSoC.mem_map
    rw [mem_dictKeys_dictUpdate]
    rintro (h1 | h1)
    · revert h1
      decide
    · exact h h1
  unfold MiniSoC.mem_map
  rw [dictGet_dictUpdate_of_not_mem _ _ _ hk]
  rfl

/-- C2, counterexample: take a parent (base) `csr_map` that already binds
`ethmac`, say to index 5.  `MiniSoC`'s own layer binds `ethmac` to 18, but
the source merges with `csr_map = {...}; csr_map.update(BaseSoC.csr_map)`,
so the base layer's value 5 — not the derived layer's 18 — is what the
final merged map holds. -/
theorem C2_counterexample :
    dictGet (MiniSoC.csr_map ⟨[("ethmac", 5)], [], []⟩) "ethmac" = some 5 ∧
    dictGet (MiniSoC.csr_map ⟨[("ethmac", 5)], [], []⟩) "ethmac" ≠ some 18 := by
  constructor
  · decide
  · decide

/-- C2, amended: because each variant builds its table as a fresh dict
literal and then calls `.update(Parent.table)`, on a name collision it is
the base (parent) layer's value that survives in the final merged map — the
update overwrites the derived layer's binding — and no error is raised. -/
theorem C2_base_layer_wins (pt : ParentTables) (k : String)
    (hk : k ∈ dictKeys pt.csr_map) (hn : (dictKeys pt.csr_map).Nodup) :
    dictGet (MiniSoC.csr_map pt) k = dictGet pt.csr_map k := by
  unfold MiniSoC.csr_map BaseSoC.csr_map
  have h1 : k ∈ dictKeys (dictUpdate [("ddrphy", 16)] pt.csr_map) :=
    (mem_dictKeys_dictUpdate _ _ _).mpr (Or.inr hk)
  have h2 : (dictKeys (dictUpdate [("ddrphy", 16)] pt.csr_map)).Nodup :=
    dictKeys_dictUpdate_nodup _ _ (by decide)
  rw [dictGet_dictUpdate_of_mem _ _ _ h1 h2,
    dictGet_dictUpdate_of_mem _ _ _ hk hn]

/-- Witness for C2's amended theorem: a parent table binding `uart` to 3
keeps that binding through the whole `MiniSoC` merge. -/
theorem C2_base_layer_wins_witness :
    ("uart" ∈ dictKeys [("uart", 3)] ∧ (dictKeys [("uart", 3)]).Nodup) ∧
    dictGet (MiniSoC.csr_map ⟨[("uart", 3)], [], []⟩) "uart" =
      dictGet [("uart", 3)] "uart" :=
  ⟨⟨by decide, by decide⟩,
    C2_base_layer_wins ⟨[("uart", 3)], [], []⟩ "uart" (by decide) (by decide)⟩

/-- C3: in the final merged tables of `BaseSoC` and `MiniSoC` — whenever
the inherited `SDRAMSoC` tables are themselves injective and do not already
use the names/values this target adds — no two distinct names share a CSR
index, no two share an interrupt line, and the registered memory regions do
not overlap; in particular the `firmware_ram` region at `0x20000000` size
`0x8000` and the `ethmac` region at `0x30000000 + shadow_base` size
`0x2000` coexist without collision. -/
theorem C3_injectivity_and_regions (pt : ParentTables) (cfg : SoCConfig)
    (hck : (dictKeys pt.csr_map).Nodup)
    (hcv : dictValuesNodup pt.csr_map)
    (hc1 : "ddrphy" ∉ dictKeys pt.csr_map)
    (hc2 : "ethphy" ∉ dictKeys pt.csr_map)
    (hc3 : "ethmac" ∉ dictKeys pt.csr_map)
    (hv16 : 16 ∉ dictValues pt.csr_map)
    (hv17 : 17 ∉ dictValues pt.csr_map)
    (hv18 : 18 ∉ dictValues pt.csr_map)
    (hik : (dictKeys pt.interrupt_map).Nodup)
    (hiv : dictValuesNodup pt.interrupt_map)
    (hi1 : "ethmac" ∉ dictKeys pt.interrupt_map)
    (hv2 : 2 ∉ dictValues pt.interrupt_map)
    (hm1 : "firmware_ram" ∉ dictKeys pt.mem_map)
    (hm2 : "ethmac" ∉ dictKeys pt.mem_map)
    (hfs : cfg.firmware_ram_size = 0x8000) :
    dictValuesNodup (BaseSoC.csr_map pt) ∧
    dictValuesNodup (MiniSoC.csr_map pt) ∧
    dictValuesNodup (MiniSoC.interrupt_map pt) ∧
    regionsDisjoint (MiniSoC.memRegions pt cfg) ∧
    (⟨"firmware_ram", 0x20000000, 0x8000⟩ : MemRegion) ∈
      MiniSoC.memRegions pt cfg ∧
    (⟨"ethmac", 0x30000000 + shadow_base, 0x2000⟩ : MemRegion) ∈
      MiniSoC.memRegions pt cfg := by
  have hfreshddr : ∀ k ∈ dictKeys pt.csr_map, k ∉ dictKeys [("ddrphy", 16)] := by
    intro k hk
    rw [dictKeys_cons, dictKeys_nil]
    simp only [List.mem_singleton]
    rintro rfl
    exact hc1 hk
  have hbase : BaseSoC.csr_map pt = [("ddrphy", 16)] ++ pt.csr_map :=
    dictUpdate_eq_append _ _ hfreshddr hck
  have hbasekeys : (dictKeys ([("ddrphy", 16)] ++ pt.csr_map)).Nodup := by
    rw [dictKeys_append, dictKeys_cons, dictKeys_nil, List.singleton_append,
      List.nodup_cons]
    exact ⟨hc1, hck⟩
  have hfresheth : ∀ k ∈ dictKeys ([("ddrphy", 16)] ++ pt.csr_map),
      k ∉ dictKeys [("ethphy", 17), ("ethmac", 18)] := by
    intro k hk
    rw [dictKeys_append, dictKeys_cons, dictKeys_nil,
      List.singleton_append] at hk
    rw [dictKeys_cons, dictKeys_cons, dictKeys_nil]
    simp only [List.mem_cons, List.not_mem_nil, or_false]
    rcases List.mem_cons.mp hk with rfl | hk2
    · rintro (h | h) <;> exact absurd h (by decide)
    · rintro (rfl | rfl)
      · exact hc2 hk2
      · exact hc3 hk2
  have hmini : MiniSoC.csr_map pt =
      [("ethphy", 17), ("ethmac", 18)] ++ ([("ddrphy", 16)] ++ pt.csr_map) := by
    unfold MiniSoC.csr_map
    rw [hbase]
    exact dictUpdate_eq_append _ _ hfresheth hbasekeys
  have hdisj16 : List.Disjoint (dictValues [("ddrphy", 16)]) (dictValues pt.csr_map) := by
    intro a ha hb
    simp only [dictValues, List.map_cons, List.map_nil, List.mem_singleton] at ha
    subst ha
    exact hv16 hb
  have hbv : dictValuesNodup (BaseSoC.csr_map pt) := by
    rw [hbase]
    unfold dictValuesNodup
    rw [dictValues_append]
    exact List.Nodup.append (by decide) hcv hdisj16
  have hmv : dictValuesNodup (MiniSoC.csr_map pt) := by
    rw [hmini]
    unfold dictValuesNodup
    rw [dictValues_append, dictValues_append]
    refine List.Nodup.append (by decide)
      (List.Nodup.append (by decide) hcv hdisj16) ?_
    intro a ha hb
    simp only [dictValues, List.map_cons, List.map_nil, List.mem_cons,
      List.mem_singleton, List.not_mem_nil, or_false] at ha
    rcases List.mem_append.mp hb with hb1 | hb1
    · simp only [dictValues, List.map_cons, List.map_nil,
        List.mem_singleton] at hb1
      subst hb1
      rcases ha with h | h <;> exact absurd h (by decide)
    · rcases ha with rfl | rfl
      · exact hv17 hb1
      · exact hv18 hb1
  have hint : MiniSoC.interrupt_map pt = [("ethmac", 2)] ++ pt.interrupt_map := by
    unfold MiniSoC.interrupt_map BaseSoC.interrupt_map
    refine dictUpdate_eq_append _ _ ?_ hik
    intro k hk
    rw [dictKeys_cons, dictKeys_nil]
    simp only [List.mem_singleton]
    rintro rfl
    exact hi1 hk
  have hiv2 : dictValuesNodup (MiniSoC.interrupt_map pt) := by
    rw [hint]
    unfold dictValuesNodup
    rw [dictValues_append]
    refine List.Nodup.append (by decide) hiv ?_
    intro a ha hb
    simp only [dictValues, List.map_cons, List.map_nil,
      List.mem_singleton] at ha
    subst ha
    exact hv2 hb
  have hfw := baseSoC_mem_map_firmware pt hm1
  have heth := miniSoC_mem_map_ethmac pt hm2
  have hregs : MiniSoC.memRegions pt cfg =
      [⟨"firmware_ram", 0x20000000, 0x8000⟩,
       ⟨"ethmac", 0x30000000 + shadow_base, 0x2000⟩] := by
    unfold MiniSoC.memRegions BaseSoC.memRegions
    rw [hfw, heth, hfs]
    rfl
  refine ⟨hbv, hmv, hiv2, ?_, ?_, ?_⟩
  · rw [hregs]
    unfold regionsDisjoint
    decide
  · rw [hregs]
    exact List.mem_cons_self _ _
  · rw [hregs]
    exact List.mem_cons_of_mem _ (List.mem_cons_self _ _)

/-- Witness for C3 with an empty inherited table and the default
`firmware_ram_size = 0x8000`. -/
theorem C3_injectivity_and_regions_witness :
    ((dictKeys ([] : List (String × Nat))).Nodup ∧
      dictValuesNodup [] ∧
      "firmware_ram" ∉ dictKeys ([] : List (String × Nat)) ∧
      (⟨0, 0x8000⟩ : SoCConfig).firmware_ram_size = 0x8000) ∧
    (dictValuesNodup (BaseSoC.csr_map ⟨[], [], []⟩) ∧
      dictValuesNodup (MiniSoC.csr_map ⟨[], [], []⟩) ∧
      dictValuesNodup (MiniSoC.interrupt_map ⟨[], [], []⟩) ∧
      regionsDisjoint (MiniSoC.memRegions ⟨[], [], []⟩ ⟨0, 0x8000⟩) ∧
      (⟨"firmware_ram", 0x20000000, 0x8000⟩ : MemRegion) ∈
        MiniSoC.memRegions ⟨[], [], []⟩ ⟨0, 0x8000⟩ ∧
      (⟨"ethmac", 0x30000000 + shadow_base, 0x2000⟩ : MemRegion) ∈
        MiniSoC.memRegions ⟨[], [], []⟩ ⟨0, 0x8000⟩) :=
  ⟨⟨by decide, by decide, by decide, rfl⟩,
    C3_injectivity_and_regions ⟨[], [], []⟩ ⟨0, 0x8000⟩ (by decide) (by decide)
      (by decide) (by decide) (by decide) (by decide) (by decide) (by decide)
      (by decide) (by decide) (by decide) (by decide) (by decide) (by decide)
      rfl⟩

/-- C7: `MiniSoC.__init__` registers the `ethmac` memory region at
`self.mem_map["ethmac"] + self.shadow_base`, i.e. at `0x30000000 +
0x80000000 = 0xb0000000`, with size `0x2000` — the shadow address is the
base address plus the fixed platform shadow offset. -/
theorem C7_ethmac_shadow_region (pt : ParentTables) (cfg : SoCConfig)
    (hm2 : "ethmac" ∉ dictKeys pt.mem_map) :
    dictGet (MiniSoC.mem_map pt) "ethmac" = some 0x30000000 ∧
    (⟨"ethmac", 0x30000000 + shadow_base, 0x2000⟩ : MemRegion) ∈
      MiniSoC.memRegions pt cfg ∧
    0x30000000 + shadow_base = 0xb0000000 := by
  have heth := miniSoC_mem_map_ethmac pt hm2
  refine ⟨heth, ?_, by norm_num [shadow_base]⟩
  unfold MiniSoC.memRegions
  rw [heth]
  exact List.mem_append_right _ (List.mem_singleton_self _)

/-- Witness for C7 with an empty inherited `mem_map`. -/
theorem C7_ethmac_shadow_region_witness :
    ("ethmac" ∉ dictKeys ([] : List (String × Nat))) ∧
    (dictGet (MiniSoC.mem_map ⟨[], [], []⟩) "ethmac" = some 0x30000000 ∧
      (⟨"ethmac", 0x30000000 + shadow_base, 0x2000⟩ : MemRegion) ∈
        MiniSoC.memRegions ⟨[], [], []⟩ ⟨0, 0x8000⟩ ∧
      0x30000000 + shadow_base = 0xb0000000) :=
  ⟨by decide, C7_ethmac_shadow_region ⟨[], [], []⟩ ⟨0, 0x8000⟩ (by decide)⟩

/-- C10: the `firmware_ram` submodule is attached unconditionally by both
`BaseSoC.__init__` and `MiniSoC.__init__`, and its memory region is always
registered at base `0x20000000` with the configured `firmware_ram_size`,
for every value of `integrated_main_ram_size`. -/
theorem C10_firmware_ram_unconditional (pt : ParentTables) (cfg : SoCConfig)
    (h : "firmware_ram" ∉ dictKeys pt.mem_map) :
    "firmware_ram" ∈ BaseSoC.submodules cfg ∧
    "firmware_ram" ∈ MiniSoC.submodules cfg ∧
    (⟨"firmware_ram", 0x20000000, cfg.firmware_ram_size⟩ : MemRegion) ∈
      BaseSoC.memRegions pt cfg ∧
    (⟨"firmware_ram", 0x20000000, cfg.firmware_ram_size⟩ : MemRegion) ∈
      MiniSoC.memRegions pt cfg := by
  have hfw := baseSoC_mem_map_firmware pt h
  refine ⟨?_, ?_, ?_, ?_⟩
  · simp [BaseSoC.submodules]
  · simp [MiniSoC.submodules, BaseSoC.submodules]
  · unfold BaseSoC.memRegions
    rw [hfw]
    exact List.mem_singleton_self _
  · unfold MiniSoC.memRegions BaseSoC.memRegions
    rw [hfw]
    exact List.mem_append_left _ (List.mem_singleton_self _)

/-- Witness for C10 in a configuration that does have integrated main
memory (`integrated_main_ram_size = 0x1000000`): `firmware_ram` is still
present with its region at `0x20000000`. -/
theorem C10_firmware_ram_unconditional_witness :
    ("firmware_ram" ∉ dictKeys ([] : List (String × Nat))) ∧
    ("firmware_ram" ∈ BaseSoC.submodules ⟨0x1000000, 0x8000⟩ ∧
      "firmware_ram" ∈ MiniSoC.submodules ⟨0x1000000, 0x8000⟩ ∧
      (⟨"firmware_ram", 0x20000000,
          (⟨0x1000000, 0x8000⟩ : SoCConfig).firmware_ram_size⟩ : MemRegion) ∈
        BaseSoC.memRegions ⟨[], [], []⟩ ⟨0x1000000, 0x8000⟩ ∧
      (⟨"firmware_ram", 0x20000000,
          (⟨0x1000000, 0x8000⟩ : SoCConfig).firmware_ram_size⟩ : MemRegion) ∈
        MiniSoC.memRegions ⟨[], [], []⟩ ⟨0x1000000, 0x8000⟩) :=
  ⟨by decide,
    C10_firmware_ram_unconditional ⟨[], [], []⟩ ⟨0x1000000, 0x8000⟩ (by decide)⟩

end OpsisBase
